import Mathlib

/-!
Verification of the shell AST rendering layer (`ast.go` of dominikh/sh).

The AST node types and every `String()` rendering method are embedded as
Lean definitions, translated construct by construct from the Go source.
The keyword/operator token enumeration and the `Pos` type live outside the
given source file and are modelled from the spec where noted.
-/

set_option maxHeartbeats 1000000

/-- Modelled from the spec: `Pos` is an opaque source-location value defined
outside `ast.go`; the zero value is the "unknown position" sentinel
(`defaultPos` in the source). -/
structure Pos where
  line : Nat
  col : Nat
deriving DecidableEq, Repr

/-- `var defaultPos = Pos{}` — the unknown-position sentinel. -/
def defaultPos : Pos := ⟨0, 0⟩

/-- Modelled from the spec: the keyword/operator enumeration is
collaborator-supplied (spec §1/§2, "treated as an opaque enumeration");
only the tokens referenced by `ast.go`'s rendering rules are included. -/
inductive Token where
  | HEREDOC
  | DHEREDOC
  | BANG
  | AND
  | LAND
  | LOR
  | PIPE
  | RDROUT
  | RDRIN
  | IF
  | THEN
  | ELIF
  | ELSE
  | FI
  | WHILE
  | UNTIL
  | DO
  | DONE
  | FOR
  | IN
  | CASE
  | ESAC
  | FUNCTION
deriving DecidableEq, Repr

/-- Modelled from the spec: each token's literal text, with the standard
shell spellings the spec's examples use (`"! echo hi &"`, `if/then/fi`,
`&&`, `;;`, heredoc operators). -/
def Token.String : Token → String
  | .HEREDOC => "<<"
  | .DHEREDOC => "<<-"
  | .BANG => "!"
  | .AND => "&"
  | .LAND => "&&"
  | .LOR => "||"
  | .PIPE => "|"
  | .RDROUT => ">"
  | .RDRIN => "<"
  | .IF => "if"
  | .THEN => "then"
  | .ELIF => "elif"
  | .ELSE => "else"
  | .FI => "fi"
  | .WHILE => "while"
  | .UNTIL => "until"
  | .DO => "do"
  | .DONE => "done"
  | .FOR => "for"
  | .IN => "in"
  | .CASE => "case"
  | .ESAC => "esac"
  | .FUNCTION => "function"

/-- `type Lit struct { ValuePos Pos; Value string }` -/
structure Lit where
  valuePos : Pos
  value : String
deriving DecidableEq, Repr

/-- `func (l Lit) String() string { return l.Value }` -/
def Lit.String (l : Lit) : String := l.value

/-- `func (l Lit) Pos() Pos { return l.ValuePos }` -/
def Lit.Pos (l : Lit) : Pos := l.valuePos

mutual

/-- The closed set of AST node variants implementing Go's `Node` interface
(spec §9 makes the set explicit): word-part value nodes plus the
command-like nodes a `Stmt` can wrap. Fields follow the Go structs. -/
inductive Node where
  | lit (valuePos : Pos) (value : String)
  | sglQuoted (quote : Pos) (value : String)
  | dblQuoted (quote : Pos) (parts : List Node)
  | paramExp (exp : Pos) (short : Bool) (text : String)
  | arithmExp (exp rparen : Pos) (words : List Word)
  | cmdSubst (left right : Pos) (backquotes : Bool) (stmts : List Stmt)
  | command (args : List Word)
  | subshell (lparen rparen : Pos) (stmts : List Stmt)
  | block (lbrace rbrace : Pos) (stmts : List Stmt)
  | ifStmt (ifPos fiPos : Pos) (conds thenStmts : List Stmt)
      (elifs : List Elif) (elseStmts : List Stmt)
  | whileStmt (whilePos donePos : Pos) (conds doStmts : List Stmt)
  | untilStmt (untilPos donePos : Pos) (conds doStmts : List Stmt)
  | forStmt (forPos donePos : Pos) (name : Lit) (wordList : List Word)
      (doStmts : List Stmt)
  | caseStmt (casePos esacPos : Pos) (word : Word) (list : List PatternList)
  | binaryExpr (opPos : Pos) (op : Token) (x y : Stmt)
  | funcDecl (position : Pos) (bashStyle : Bool) (name : Lit) (body : Stmt)

/-- `type Word struct { Parts []Node }` -/
inductive Word where
  | mk (parts : List Node)

/-- `type Stmt struct { Node; Position Pos; Negated bool; Assigns []Assign;
Redirs []Redirect; Background bool }` — the embedded interface value may be
nil, hence `Option Node`. -/
inductive Stmt where
  | mk (node : Option Node) (position : Pos) (negated : Bool)
      (assigns : List Assign) (redirs : List Redirect) (background : Bool)

/-- `type Assign struct { Name Lit; Value Word }` -/
inductive Assign where
  | mk (name : Lit) (value : Word)

/-- `type Redirect struct { OpPos Pos; Op Token; N Lit; Word Word }` -/
inductive Redirect where
  | mk (opPos : Pos) (op : Token) (n : Lit) (word : Word)

/-- `type Elif struct { Elif Pos; Conds []Stmt; ThenStmts []Stmt }` -/
inductive Elif where
  | mk (elifPos : Pos) (conds thenStmts : List Stmt)

/-- `type PatternList struct { Patterns []Word; Stmts []Stmt }` -/
inductive PatternList where
  | mk (patterns : List Word) (stmts : List Stmt)

end

def Word.parts : Word → List Node
  | .mk ps => ps

def Stmt.node : Stmt → Option Node
  | .mk n _ _ _ _ _ => n

def Stmt.position : Stmt → Pos
  | .mk _ p _ _ _ _ => p

def Stmt.negated : Stmt → Bool
  | .mk _ _ b _ _ _ => b

def Stmt.assigns : Stmt → List Assign
  | .mk _ _ _ a _ _ => a

def Stmt.redirs : Stmt → List Redirect
  | .mk _ _ _ _ r _ => r

def Stmt.background : Stmt → Bool
  | .mk _ _ _ _ _ b => b

def Redirect.op : Redirect → Token
  | .mk _ o _ _ => o

def Redirect.n : Redirect → Lit
  | .mk _ _ n _ => n

def Redirect.word : Redirect → Word
  | .mk _ _ _ w => w

def PatternList.patterns : PatternList → List Word
  | .mk ps _ => ps

def PatternList.stmts : PatternList → List Stmt
  | .mk _ ss => ss

/-- `func (s Stmt) Pos() Pos { return s.Position }` -/
def Stmt.Pos (s : Stmt) : Pos := s.position

/-- `func (s Stmt) newlineAfter() bool`: true iff some redirect's operator
is `HEREDOC` or `DHEREDOC`. -/
def Stmt.newlineAfter (s : Stmt) : Bool :=
  s.redirs.any fun r => r.op == Token.HEREDOC || r.op == Token.DHEREDOC

/-- The tail of `stringerJoin`'s loop, every element prefixed by `sep`. -/
def strJoinRest : List String → String → String
  | [], _ => ""
  | s :: rest, sep => sep ++ (s ++ strJoinRest rest sep)

/-- `stringerJoin(strs, sep)`: concatenate, writing `sep` before every
element except the first (the Go loop's `i > 0` branch). -/
def strJoin : List String → String → String
  | [], _ => ""
  | s :: rest, sep => s ++ strJoinRest rest sep

/-- The Go check `len(s) > 0 && s[len(s)-1] == '\n'` from `stmtList`. -/
def endsWithNL (s : String) : Bool :=
  match s.data.getLast? with
  | some c => c == '\n'
  | none => false

mutual

/-- Per-variant `String()` methods of `ast.go`, one equation per Go method. -/
def Node.String : Node → String
  | .lit _ v => v
  | .sglQuoted _ v => (Char.ofNat 39).toString ++ v ++ (Char.ofNat 39).toString
  | .dblQuoted _ parts => "\"" ++ nodeJoin parts "" ++ "\""
  | .paramExp _ short text =>
      if short then "$" ++ text else "$\x7b" ++ text ++ "\x7d"
  | .arithmExp _ _ words => "$((" ++ wordJoin words " " ++ "))"
  | .cmdSubst _ _ bq stmts =>
      if bq then "`" ++ stmtJoin stmts ++ "`"
      else "$(" ++ stmtJoin stmts ++ ")"
  | .command args => wordJoin args " "
  | .subshell _ _ [] => "( )"
  | .subshell _ _ (s :: rest) => "(" ++ stmtJoin (s :: rest) ++ ")"
  | .block _ _ stmts => "\x7b" ++ stmtList stmts ++ "\x7d"
  | .ifStmt _ _ conds thenStmts elifs elseStmts =>
      Token.String .IF ++ stmtList conds ++ Token.String .THEN ++
        stmtList thenStmts ++ elifJoin elifs ++
        (match elseStmts with
         | [] => ""
         | s :: rest => Token.String .ELSE ++ stmtList (s :: rest)) ++
        Token.String .FI
  | .whileStmt _ _ conds doStmts =>
      Token.String .WHILE ++ stmtList conds ++ Token.String .DO ++
        stmtList doStmts ++ Token.String .DONE
  | .untilStmt _ _ conds doStmts =>
      Token.String .UNTIL ++ stmtList conds ++ Token.String .DO ++
        stmtList doStmts ++ Token.String .DONE
  | .forStmt _ _ name wordList doStmts =>
      Token.String .FOR ++ " " ++ name.value ++
        (match wordList with
         | [] => ""
         | w :: ws => " " ++ Token.String .IN ++ " " ++ wordJoin (w :: ws) " ") ++
        "; " ++ Token.String .DO ++ stmtList doStmts ++ Token.String .DONE
  | .caseStmt _ _ word list =>
      Token.String .CASE ++ " " ++ word.String ++ " " ++ Token.String .IN ++
        caseArms list ++ "; " ++ Token.String .ESAC
  | .binaryExpr _ op x y =>
      x.String ++ " " ++ op.String ++ " " ++ y.String
  | .funcDecl _ bashStyle name body =>
      if bashStyle then
        Token.String .FUNCTION ++ " " ++ name.value ++ "() " ++ body.String
      else name.value ++ "() " ++ body.String
termination_by n => (sizeOf n, 0)

/-- `func (w Word) String() string { return nodeJoin(w.Parts, "") }` -/
def Word.String : Word → String
  | .mk parts => nodeJoin parts ""
termination_by w => (sizeOf w, 0)

/-- `func (s Stmt) String() string`: negation marker, inner node, assigns,
redirects, background marker collected in order and space-joined. -/
def Stmt.String : Stmt → String
  | .mk node _ negated assigns redirs background =>
      strJoin
        ((if negated then [Token.String .BANG] else []) ++
          (match node with
           | some n => [Node.String n]
           | none => []) ++
          assignStrs assigns ++ redirStrs redirs ++
          (if background then [Token.String .AND] else []))
        " "
termination_by s => (sizeOf s, 0)

/-- `func (a Assign) String() string { return fmt.Sprint(a.Name, "=", a.Value) }` -/
def Assign.String : Assign → String
  | .mk name value => name.value ++ "=" ++ value.String
termination_by a => (sizeOf a, 0)

/-- `func (r Redirect) String() string`: `N`, `Op`, `Word` concatenated. -/
def Redirect.String : Redirect → String
  | .mk _ op n word => n.value ++ op.String ++ word.String
termination_by r => (sizeOf r, 0)

/-- `func (e Elif) String() string` -/
def Elif.String : Elif → String
  | .mk _ conds thenStmts =>
      Token.String .ELIF ++ stmtList conds ++ Token.String .THEN ++
        stmtList thenStmts
termination_by e => (sizeOf e, 0)

/-- `func (p PatternList) String() string`: patterns `" | "`-joined,
then `") "`, then the statement join. -/
def PatternList.String : PatternList → String
  | .mk patterns stmts =>
      wordJoin patterns " | " ++ ") " ++ stmtJoin stmts
termination_by p => (sizeOf p, 0)

/-- `nodeJoin(ns, sep)`: each element's render, `sep` before non-first. -/
def nodeJoin : List Node → String → String
  | [], _ => ""
  | n :: rest, sep => n.String ++ nodeJoinRest rest sep
termination_by ns _ => (sizeOf ns, 0)

def nodeJoinRest : List Node → String → String
  | [], _ => ""
  | n :: rest, sep => sep ++ (n.String ++ nodeJoinRest rest sep)
termination_by ns _ => (sizeOf ns, 0)

/-- `wordJoin(words, sep)` (Go wraps the words as nodes and calls
`nodeJoin`; the joining behaviour is identical). -/
def wordJoin : List Word → String → String
  | [], _ => ""
  | w :: rest, sep => w.String ++ wordJoinRest rest sep
termination_by ws _ => (sizeOf ws, 0)

def wordJoinRest : List Word → String → String
  | [], _ => ""
  | w :: rest, sep => sep ++ (w.String ++ wordJoinRest rest sep)
termination_by ws _ => (sizeOf ws, 0)

/-- `stmtJoinWithEnd(stmts, end)`: the core statement-join loop. The Go
loop's state is `newline` (whether the previous statement demands a line
break); the first statement gets no separator, later ones get `"\n"` when
`newline` is set and `"; "` otherwise; a final `"\n"` is written only when
`newline` survives the loop and `end` is set. -/
def stmtJoinWithEnd : List Stmt → Bool → String
  | [], _ => ""
  | s :: rest, e => s.String ++ stmtJoinRest s.newlineAfter rest e
termination_by ss _ => (sizeOf ss, 1)

/-- The statement-join loop after the first statement: `nl` is the
`newline` flag left by the previous statement. -/
def stmtJoinRest : Bool → List Stmt → Bool → String
  | nl, [], e => if nl && e then "\n" else ""
  | nl, s :: rest, e =>
      (if nl then "\n" else "; ") ++
        (s.String ++ stmtJoinRest s.newlineAfter rest e)
termination_by _ ss _ => (sizeOf ss, 0)

/-- `func stmtJoin(stmts []Stmt) string { return stmtJoinWithEnd(stmts, true) }` -/
def stmtJoin (stmts : List Stmt) : String := stmtJoinWithEnd stmts true
termination_by (sizeOf stmts, 2)

/-- `func stmtList(stmts []Stmt) string`: empty gives the `"; "` sentinel;
otherwise a leading space plus the join, and a trailing `"; "` unless the
join already ends in a newline. -/
def stmtList (stmts : List Stmt) : String :=
  match stmts with
  | [] => "; "
  | s :: rest =>
      let j := stmtJoin (s :: rest)
      if endsWithNL j then " " ++ j else " " ++ j ++ "; "
termination_by (sizeOf stmts, 3)

def assignStrs : List Assign → List String
  | [] => []
  | a :: rest => a.String :: assignStrs rest
termination_by l => (sizeOf l, 0)

def redirStrs : List Redirect → List String
  | [] => []
  | r :: rest => r.String :: redirStrs rest
termination_by l => (sizeOf l, 0)

/-- The `IfStmt.String` loop over elifs: plain concatenation. -/
def elifJoin : List Elif → String
  | [] => ""
  | e :: rest => e.String ++ elifJoin rest
termination_by l => (sizeOf l, 0)

/-- The `CaseStmt.String` loop: `" "` before the first pattern-list,
`";; "` before every later one. -/
def caseArms : List PatternList → String
  | [] => ""
  | p :: rest => " " ++ p.String ++ caseArmsRest rest
termination_by l => (sizeOf l, 0)

def caseArmsRest : List PatternList → String
  | [] => ""
  | p :: rest => ";; " ++ (p.String ++ caseArmsRest rest)
termination_by l => (sizeOf l, 0)

end

/-- `type File struct { Name string; Stmts []Stmt }` -/
structure File where
  name : String
  stmts : List Stmt

/-- `func (f File) String() string { return stmtJoinWithEnd(f.Stmts, false) }` -/
def File.String (f : File) : String := stmtJoinWithEnd f.stmts false

mutual

/-- Per-variant `Pos()` methods of `ast.go`. -/
def Node.Pos : Node → Pos
  | .lit p _ => p
  | .sglQuoted p _ => p
  | .dblQuoted p _ => p
  | .paramExp p _ _ => p
  | .arithmExp p _ _ => p
  | .cmdSubst l _ _ _ => l
  | .command args => wordFirstPos args
  | .subshell l _ _ => l
  | .block _ r _ => r
  | .ifStmt i _ _ _ _ _ => i
  | .whileStmt w _ _ _ => w
  | .untilStmt u _ _ _ => u
  | .forStmt f _ _ _ _ => f
  | .caseStmt c _ _ _ => c
  | .binaryExpr _ _ x _ => x.Pos
  | .funcDecl p _ _ _ => p

/-- `func (w Word) Pos() Pos { return nodeFirstPos(w.Parts) }` -/
def Word.Pos : Word → Pos
  | .mk parts => nodeFirstPos parts

/-- `nodeFirstPos`: first node's position, or the sentinel when empty. -/
def nodeFirstPos : List Node → Pos
  | [] => defaultPos
  | n :: _ => n.Pos

/-- `wordFirstPos`: first word's position, or the sentinel when empty. -/
def wordFirstPos : List Word → Pos
  | [] => defaultPos
  | w :: _ => w.Pos

end

/-- `func (a Assign) Pos() Pos { return a.Name.Pos() }` -/
def Assign.Pos : Assign → Pos
  | .mk name _ => name.valuePos

/-- Modelled from the spec: `File` has no `Pos()` method inside `ast.go`;
spec §4.1 says a node derived from an empty child sequence reports the
unknown-position sentinel, so a `File`'s position is its first statement's
position, or the sentinel when it has zero statements. -/
def File.Pos (f : File) : Pos :=
  match f.stmts with
  | [] => defaultPos
  | s :: _ => s.Pos

/-- Number of positions at which `pat` occurs as a contiguous substring of
`s`, counted over the underlying character lists. -/
def countOccur (pat : List Char) : List Char → Nat
  | [] => 0
  | c :: rest =>
      (if pat.isPrefixOf (c :: rest) then 1 else 0) + countOccur pat rest

/-- A word holding one literal, for concrete test trees. -/
def litWord (s : String) : Word := .mk [.lit defaultPos s]

/-- A plain statement wrapping one node: no flags, assigns or redirects. -/
def plainStmt (n : Node) : Stmt := .mk (some n) defaultPos false [] [] false

def echoHi : Node := .command [litWord "echo", litWord "hi"]

/-- The spec's example: `echo hi` with `Negated=true` and `Background=true`. -/
def negBgEcho : Stmt := .mk (some echoHi) defaultPos true [] [] true

/-- A `<<EOF` here-document redirect (no explicit descriptor). -/
def heredocRedir : Redirect :=
  .mk defaultPos .HEREDOC ⟨defaultPos, ""⟩ (litWord "EOF")

/-- `cat <<EOF` — a statement carrying a here-document redirect. -/
def catHeredoc : Stmt :=
  .mk (some (.command [litWord "cat"])) defaultPos false [] [heredocRedir] false

/-! ### Structural lemmas about the statement-join -/

/-- Splitting the join tail around two consecutive statements `a, b`:
the separator written between them is decided by `a.newlineAfter`. -/
theorem stmtJoinRest_split (pre : List Stmt) (nl : Bool) (a b : Stmt)
    (post : List Stmt) (e : Bool) :
    stmtJoinRest nl (pre ++ a :: b :: post) e =
      stmtJoinRest nl (pre ++ [a]) false ++
        (if a.newlineAfter then "\n" else "; ") ++
        b.String ++ stmtJoinRest b.newlineAfter post e := by
  induction pre generalizing nl with
  | nil => simp [stmtJoinRest, ← String.append_assoc]
  | cons p pre ih => simp [stmtJoinRest, ih, ← String.append_assoc]

/-- Splitting the full join around two consecutive statements. -/
theorem stmtJoinWithEnd_split (pre : List Stmt) (a b : Stmt)
    (post : List Stmt) (e : Bool) :
    stmtJoinWithEnd (pre ++ a :: b :: post) e =
      stmtJoinWithEnd (pre ++ [a]) false ++
        (if a.newlineAfter then "\n" else "; ") ++
        b.String ++ stmtJoinRest b.newlineAfter post e := by
  cases pre with
  | nil => simp [stmtJoinWithEnd, stmtJoinRest, ← String.append_assoc]
  | cons p pre' =>
      simp [stmtJoinWithEnd, stmtJoinRest_split, ← String.append_assoc]

/-- The non-terminating join of a sequence ends with its last statement's
render. -/
theorem stmtJoinRest_concat (nl : Bool) (pre : List Stmt) (a : Stmt) :
    ∃ p, stmtJoinRest nl (pre ++ [a]) false = p ++ a.String := by
  induction pre generalizing nl with
  | nil =>
      exact ⟨if nl then "\n" else "; ", by simp [stmtJoinRest]⟩
  | cons p pre ih =>
      obtain ⟨q, hq⟩ := ih p.newlineAfter
      exact ⟨(if nl then "\n" else "; ") ++ p.String ++ q, by
        simp [stmtJoinRest, hq, ← String.append_assoc]⟩

theorem stmtJoinWithEnd_concat (pre : List Stmt) (a : Stmt) :
    ∃ p, stmtJoinWithEnd (pre ++ [a]) false = p ++ a.String := by
  cases pre with
  | nil => exact ⟨"", by simp [stmtJoinWithEnd, stmtJoinRest]⟩
  | cons p pre' =>
      obtain ⟨q, hq⟩ := stmtJoinRest_concat p.newlineAfter pre' a
      exact ⟨p.String ++ q, by simp [stmtJoinWithEnd, hq, ← String.append_assoc]⟩

/-- When the last statement demands a line break, the terminating join is
the non-terminating join plus one newline. -/
theorem stmtJoinRest_end_nl (nl : Bool) (pre : List Stmt) (a : Stmt)
    (h : a.newlineAfter = true) :
    stmtJoinRest nl (pre ++ [a]) true = stmtJoinRest nl (pre ++ [a]) false ++ "\n" := by
  induction pre generalizing nl with
  | nil => simp [stmtJoinRest, h, ← String.append_assoc]
  | cons p pre ih => simp [stmtJoinRest, ih, ← String.append_assoc]

theorem stmtJoinWithEnd_end_nl (pre : List Stmt) (a : Stmt)
    (h : a.newlineAfter = true) :
    stmtJoinWithEnd (pre ++ [a]) true = stmtJoinWithEnd (pre ++ [a]) false ++ "\n" := by
  cases pre with
  | nil => simp [stmtJoinWithEnd, stmtJoinRest, h]
  | cons p pre' => simp [stmtJoinWithEnd, stmtJoinRest_end_nl _ _ _ h, ← String.append_assoc]

theorem assignStrs_eq (l : List Assign) : assignStrs l = l.map Assign.String := by
  induction l with
  | nil => simp [assignStrs]
  | cons a rest ih => simp [assignStrs, ih]

theorem redirStrs_eq (l : List Redirect) : redirStrs l = l.map Redirect.String := by
  induction l with
  | nil => simp [redirStrs]
  | cons r rest ih => simp [redirStrs, ih]

theorem caseArmsRest_eq (ps : List PatternList) :
    caseArmsRest ps = strJoinRest (ps.map PatternList.String) ";; " := by
  induction ps with
  | nil => simp [caseArmsRest, strJoinRest]
  | cons p rest ih => simp [caseArmsRest, strJoinRest, ih]

/-! ### Claim theorems -/

/-- C1: in the statement-join, the separator before each statement other
than the first is a single newline when the previous statement carries a
`HEREDOC`/`DHEREDOC` redirect (`newlineAfter`), and `"; "` otherwise; in
particular the character following a heredoc-carrying statement's render
at a non-final position is a newline, never `"; "`. -/
theorem heredoc_separator (pre : List Stmt) (a b : Stmt) (post : List Stmt)
    (e : Bool) :
    a.newlineAfter =
      (a.redirs.any fun r => r.op == Token.HEREDOC || r.op == Token.DHEREDOC) ∧
    stmtJoinWithEnd (pre ++ a :: b :: post) e =
      stmtJoinWithEnd (pre ++ [a]) false ++
        (if a.newlineAfter then "\n" else "; ") ++
        b.String ++ stmtJoinRest b.newlineAfter post e ∧
    (a.newlineAfter = true →
      ∃ p, stmtJoinWithEnd (pre ++ a :: b :: post) e =
        p ++ a.String ++ "\n" ++ b.String ++ stmtJoinRest b.newlineAfter post e) := by
  refine ⟨rfl, stmtJoinWithEnd_split pre a b post e, fun h => ?_⟩
  obtain ⟨p, hp⟩ := stmtJoinWithEnd_concat pre a
  exact ⟨p, by rw [stmtJoinWithEnd_split pre a b post e, hp, h]; simp⟩

theorem heredoc_separator_witness :
    ∃ p, stmtJoinWithEnd [catHeredoc, plainStmt echoHi] false =
      p ++ catHeredoc.String ++ "\n" ++ (plainStmt echoHi).String ++
        stmtJoinRest (plainStmt echoHi).newlineAfter [] false :=
  (heredoc_separator [] catHeredoc (plainStmt echoHi) [] false).2.2 (by decide)

/-- C2 counterexample: `File.String` calls `stmtJoinWithEnd(stmts, false)`,
so a file whose last (only) statement carries a heredoc redirect renders
with no trailing newline: the render of `cat <<EOF` is exactly
`"cat <<EOF"`, whose last character is not a newline. -/
theorem file_heredoc_no_trailing_newline :
    catHeredoc.newlineAfter = true ∧
    File.String ⟨"f", [catHeredoc]⟩ = "cat <<EOF" ∧
    endsWithNL (File.String ⟨"f", [catHeredoc]⟩) = false := by
  have h : File.String ⟨"f", [catHeredoc]⟩ = "cat <<EOF" := by
    simp [File.String, stmtJoinWithEnd, stmtJoinRest, Stmt.newlineAfter,
      Stmt.redirs, Redirect.op, Stmt.String, Node.String, Word.String,
      Token.String, Redirect.String, catHeredoc, heredocRedir, litWord,
      wordJoin, wordJoinRest, nodeJoin, nodeJoinRest, strJoin, strJoinRest,
      assignStrs, redirStrs]
  exact ⟨by decide, h, by rw [h]; decide⟩

/-- C2 amended: `File.String` requests the non-terminating join
(`end = false`), so even when the last statement carries a heredoc-type
redirect no trailing newline is appended: the file render equals the
non-terminating join and ends with the last statement's render, while the
terminating join (`stmtJoin`, used at `Subshell`/`CmdSubst`/`PatternList`
scope, not at `File` scope) would append the newline. -/
theorem file_heredoc_render (nm : String) (pre : List Stmt) (a : Stmt)
    (h : a.newlineAfter = true) :
    File.String ⟨nm, pre ++ [a]⟩ = stmtJoinWithEnd (pre ++ [a]) false ∧
    stmtJoin (pre ++ [a]) = File.String ⟨nm, pre ++ [a]⟩ ++ "\n" ∧
    ∃ p, File.String ⟨nm, pre ++ [a]⟩ = p ++ a.String := by
  refine ⟨rfl, ?_, ?_⟩
  · simpa [stmtJoin, File.String] using stmtJoinWithEnd_end_nl pre a h
  · simpa [File.String] using stmtJoinWithEnd_concat pre a

theorem file_heredoc_render_witness :
    File.String ⟨"f", [catHeredoc]⟩ = stmtJoinWithEnd [catHeredoc] false ∧
    stmtJoin [catHeredoc] = File.String ⟨"f", [catHeredoc]⟩ ++ "\n" ∧
    ∃ p, File.String ⟨"f", [catHeredoc]⟩ = p ++ catHeredoc.String :=
  file_heredoc_render "f" [] catHeredoc (by decide)

/-- C3: the inline statement-list helper renders an empty sequence as the
sentinel `"; "`; a non-empty sequence renders with a leading space and a
trailing `"; "` exactly when the statement-join's output does not already
end in a newline; consequently an empty `Block` renders as `"{; }"`. -/
theorem stmtList_spec (lb rb : Pos) (s : Stmt) (rest : List Stmt) :
    stmtList [] = "; " ∧
    stmtList (s :: rest) =
      (if endsWithNL (stmtJoin (s :: rest)) then " " ++ stmtJoin (s :: rest)
       else " " ++ stmtJoin (s :: rest) ++ "; ") ∧
    Node.String (.block lb rb []) = "\x7b; \x7d" := by
  refine ⟨by simp [stmtList], by simp [stmtList], ?_⟩
  simp [Node.String, stmtList]

/-- C4: an empty `Subshell` renders as the three characters `"( )"`; a
non-empty one as `"("` + statement-join + `")"`. -/
theorem subshell_spec (lp rp : Pos) (s : Stmt) (rest : List Stmt) :
    Node.String (.subshell lp rp []) = "( )" ∧
    Node.String (.subshell lp rp (s :: rest)) =
      "(" ++ stmtJoin (s :: rest) ++ ")" := by
  constructor <;> simp [Node.String]

/-- C5: a statement renders its parts in order — negation marker, inner
node, assigns, redirects, background marker — space-joined with absent
parts omitted; the spec's example `! echo hi &` comes out exactly. -/
theorem stmt_render_order (node : Option Node) (pos : Pos) (neg bg : Bool)
    (assigns : List Assign) (redirs : List Redirect) :
    Stmt.String (.mk node pos neg assigns redirs bg) =
      strJoin
        ((if neg then [Token.String .BANG] else []) ++
          (match node with
           | some n => [n.String]
           | none => []) ++
          assigns.map Assign.String ++ redirs.map Redirect.String ++
          (if bg then [Token.String .AND] else [])) " " ∧
    Stmt.String negBgEcho = "! echo hi &" := by
  constructor
  · cases node <;> simp [Stmt.String, assignStrs_eq, redirStrs_eq]
  · simp [Stmt.String, Node.String, Word.String, Token.String, negBgEcho,
      echoHi, litWord, wordJoin, wordJoinRest, nodeJoin, nodeJoinRest,
      strJoin, strJoinRest, assignStrs, redirStrs]

/-- A two-arm case statement `case y in a) b;; c) d; esac`, used nested. -/
def innerCase : Node :=
  .caseStmt defaultPos defaultPos (litWord "y")
    [.mk [litWord "a"] [plainStmt (.command [litWord "b"])],
     .mk [litWord "c"] [plainStmt (.command [litWord "d"])]]

/-- A single pattern-list whose body is the nested case statement. -/
def outerArms : List PatternList := [.mk [litWord "p"] [plainStmt innerCase]]

def outerCase : Node := .caseStmt defaultPos defaultPos (litWord "x") outerArms

/-- C6 counterexample: the substring-count form of the claim fails once a
pattern-list body itself renders `";; "`: nesting a two-arm case statement
inside a one-arm case statement yields one occurrence of `";; "` although
N − 1 = 0. -/
theorem case_count_counterexample :
    outerArms.length = 1 ∧
    countOccur ";; ".data (Node.String outerCase).data = 1 := by
  have h : Node.String outerCase
      = "case x in p) case y in a) b;; c) d; esac; esac" := by
    simp [Node.String, Word.String, Token.String, PatternList.String, outerCase,
      outerArms, innerCase, caseArms, caseArmsRest, stmtJoin, stmtJoinWithEnd,
      stmtJoinRest, Stmt.String, Stmt.newlineAfter, Stmt.redirs, plainStmt,
      litWord, wordJoin, wordJoinRest, nodeJoin, nodeJoinRest, strJoin,
      strJoinRest, assignStrs, redirStrs]
  refine ⟨by decide, ?_⟩
  rw [h]; decide

/-- C6 amended: for N ≥ 1 pattern-lists the render is `"case "` + word +
`" in "` + the pattern-list renders joined with the separator `";; "`
(N − 1 separators inserted at this level) + `"; esac"`; hence it ends with
`"; esac"`. The total substring count of `";; "` can exceed N − 1 when a
child render itself contains `";; "` (see the counterexample). -/
theorem case_render (cp ep : Pos) (w : Word) (p : PatternList)
    (ps : List PatternList) :
    Node.String (.caseStmt cp ep w (p :: ps)) =
      "case " ++ w.String ++ " in " ++
        strJoin ((p :: ps).map PatternList.String) ";; " ++ "; esac" ∧
    ∃ q, Node.String (.caseStmt cp ep w (p :: ps)) = q ++ "; esac" := by
  have h : Node.String (.caseStmt cp ep w (p :: ps)) =
      "case " ++ w.String ++ " in " ++
        strJoin ((p :: ps).map PatternList.String) ";; " ++ "; esac" := by
    simp [Node.String, Token.String, caseArms, caseArmsRest_eq, strJoin,
      ← String.append_assoc]
    simp [String.append_assoc _ " " "in", String.append_assoc _ " in" " ",
      String.append_assoc _ "; " "esac"]
  exact ⟨h, _, h⟩

/-- C7 counterexample: with an empty `WordList` the `ForStmt` head emits no
`" in "`, but the full rendered text still can contain that substring when
the body does: `for i; do a in b; done`. -/
theorem for_in_counterexample :
    Node.String (.forStmt defaultPos defaultPos ⟨defaultPos, "i"⟩ []
        [plainStmt (.command [litWord "a", litWord "in", litWord "b"])])
      = "for i; do a in b; done" ∧
    countOccur " in ".data "for i; do a in b; done".data = 1 := by
  refine ⟨?_, by decide⟩
  simp +decide [Node.String, Word.String, Token.String, Lit.String, stmtList,
    stmtJoin, stmtJoinWithEnd, stmtJoinRest, Stmt.String, Stmt.newlineAfter,
    Stmt.redirs, plainStmt, litWord, wordJoin, wordJoinRest, nodeJoin,
    nodeJoinRest, strJoin, strJoinRest, assignStrs, redirStrs, endsWithNL]

/-- C7 amended: the `ForStmt` render is `"for "` + name, then `" in "` +
the space-joined word list exactly when `WordList` is non-empty, then
`"; do"` + the inline statement list + `"done"`; with an empty `WordList`
the statement's own skeleton is exactly `for <name>; do ... done` with no
`" in "` emitted at this level, though the name or body renders may still
contain `" in "` (see the counterexample). -/
theorem for_render (fp dp : Pos) (name : Lit) (wl : List Word)
    (ds : List Stmt) :
    Node.String (.forStmt fp dp name wl ds) =
      "for " ++ name.value ++
        (match wl with
         | [] => ""
         | w :: ws => " in " ++ wordJoin (w :: ws) " ") ++
        "; do" ++ stmtList ds ++ "done" ∧
    (wl = [] →
      Node.String (.forStmt fp dp name [] ds) =
        "for " ++ name.value ++ "; do" ++ stmtList ds ++ "done") := by
  constructor
  · cases wl <;>
      simp [Node.String, Token.String, ← String.append_assoc,
        String.append_assoc _ "; " "do"]
  · intro _
    simp [Node.String, Token.String, ← String.append_assoc,
      String.append_assoc _ "; " "do"]

theorem for_render_witness :
    Node.String (.forStmt defaultPos defaultPos ⟨defaultPos, "i"⟩ []
        [plainStmt echoHi]) =
      "for " ++ (Lit.mk defaultPos "i").value ++ "; do" ++
        stmtList [plainStmt echoHi] ++ "done" :=
  (for_render defaultPos defaultPos ⟨defaultPos, "i"⟩ [] [plainStmt echoHi]).2 rfl

/-- C8: positions of nodes built from child sequences: a `Word` reports its
first fragment's position (sentinel when empty), a `Command` its first
word's (sentinel when empty), a `File` with zero statements the sentinel;
and an empty `Word` renders as empty text. -/
theorem pos_sentinel (n : Node) (ns : List Node) (w : Word) (ws : List Word)
    (nm : String) :
    Word.Pos (.mk (n :: ns)) = n.Pos ∧
    Word.Pos (.mk []) = defaultPos ∧
    Node.Pos (.command (w :: ws)) = w.Pos ∧
    Node.Pos (.command []) = defaultPos ∧
    File.Pos ⟨nm, []⟩ = defaultPos ∧
    Word.String (.mk []) = "" := by
  refine ⟨?_, ?_, ?_, ?_, rfl, ?_⟩ <;>
    simp [Word.Pos, Node.Pos, nodeFirstPos, wordFirstPos, Word.String, nodeJoin]

/-- C10: an empty `CmdSubst` renders as exactly `"$()"`, or two backquotes
when flagged — the statement join of an empty sequence is empty text and no
space padding is added (unlike the empty `Subshell`). -/
theorem cmdsubst_empty (l r : Pos) :
    Node.String (.cmdSubst l r false []) = "$()" ∧
    Node.String (.cmdSubst l r true []) = "``" := by
  constructor <;> simp [Node.String, stmtJoin, stmtJoinWithEnd]
